import Mathlib

/-!
Verification of the irmaclient keyshare protocol and credential store
(files `irmaclient/keyshare.go`, `irmaclient/handlers.go`).

Go strings are modelled as `List Char` where character-level behaviour
matters (identifier parsing, PIN hashing) and as Lean `String` where the
string is an opaque key (scheme-manager identifiers, tokens).  Go byte
slices are `List Nat` with every element below 256.  Go machine integers
are modelled as `Nat`/`Int`; where Go's 64-bit bounds are observable
(`strconv.Atoi`, `uint` conversion) the bounds appear explicitly.
-/

namespace Irmago

/-! ## Go standard-library helpers -/

/-- The largest value accepted by `strconv.Atoi` on a 64-bit platform. -/
def maxInt64 : Nat := 9223372036854775807

/-- Decimal digit to its character, as produced by `fmt.Sprintf("%d", ...)`. -/
def digitChar (d : Nat) : Char :=
  match d with
  | 0 => '0' | 1 => '1' | 2 => '2' | 3 => '3' | 4 => '4'
  | 5 => '5' | 6 => '6' | 7 => '7' | 8 => '8' | _ => '9'

/-- Whether a character is an ASCII decimal digit. -/
def isDigitCh (c : Char) : Bool := decide ('0' ≤ c) && decide (c ≤ '9')

/-- Numeric value of the digit characters of a string (most significant first). -/
def digitsVal (l : List Char) : Nat :=
  l.foldl (fun a c => a * 10 + (c.toNat - 48)) 0

/-- Parse a non-empty all-digit string; `none` otherwise. -/
def parseNatDigits (l : List Char) : Option Nat :=
  if l ≠ [] ∧ l.all isDigitCh then some (digitsVal l) else none

/-- Model of Go `strconv.Atoi`: optional sign, digits, 64-bit range check. -/
def goAtoi (l : List Char) : Option Int :=
  match l with
  | [] => none
  | c :: t =>
    if c = '+' then
      (parseNatDigits t).bind fun n =>
        if n ≤ maxInt64 then some (Int.ofNat n) else none
    else if c = '-' then
      (parseNatDigits t).bind fun n =>
        if n ≤ maxInt64 + 1 then some (-(Int.ofNat n)) else none
    else
      (parseNatDigits (c :: t)).bind fun n =>
        if n ≤ maxInt64 then some (Int.ofNat n) else none

/-- Fuel-driven body of `natRepr`; the fuel strictly exceeds the argument, so
the base case with fuel zero is never reached. -/
def natReprAux : Nat → Nat → List Char
  | 0, _ => []
  | fuel + 1, n =>
    if n < 10 then [digitChar n]
    else natReprAux fuel (n / 10) ++ [digitChar (n % 10)]

/-- Decimal representation of a natural number (`fmt.Sprintf("%d", n)`). -/
def natRepr (n : Nat) : List Char := natReprAux (n + 1) n

/-- Model of Go `uint(i)` applied to an `int` value. -/
def goUint (i : Int) : Nat := (i % ((2 : Int) ^ 64)).toNat

/-- Index of the last `'-'` in a string; `none` if absent
(Go `strings.LastIndex(str, "-")`, with `-1` mapped to `none`). -/
def lastIndexDash (l : List Char) : Option Nat :=
  match l with
  | [] => none
  | c :: t =>
    match lastIndexDash t with
    | some i => some (i + 1)
    | none => if c = '-' then some 0 else none

/-! ## publicKeyIdentifier (keyshare.go lines 91-112) -/

/-- The `publicKeyIdentifier` struct of keyshare.go. -/
structure PublicKeyIdentifier where
  Issuer : List Char
  Counter : Nat
deriving DecidableEq, Repr

/-- `(*publicKeyIdentifier).UnmarshalText` of keyshare.go: split at the last
`'-'`, `strconv.Atoi` the suffix, convert to `uint`. -/
def pkiUnmarshalText (text : List Char) : Option PublicKeyIdentifier :=
  match lastIndexDash text with
  | none => none
  | some index =>
    match goAtoi (text.drop (index + 1)) with
    | none => none
    | some counter => some ⟨text.take index, goUint counter⟩

/-- `(*publicKeyIdentifier).MarshalText` of keyshare.go:
`fmt.Sprintf("%s-%d", pki.Issuer, pki.Counter)`. -/
def pkiMarshalText (pki : PublicKeyIdentifier) : List Char :=
  pki.Issuer ++ '-' :: natRepr pki.Counter

/-! ### Decimal printing / parsing lemmas -/

theorem digitChar_isDigit (d : Nat) : isDigitCh (digitChar d) = true := by
  unfold digitChar
  split <;> decide

theorem digitChar_toNat (d : Nat) (h : d < 10) : (digitChar d).toNat = 48 + d := by
  interval_cases d <;> decide

theorem digitChar_ne_dash (d : Nat) : digitChar d ≠ '-' := by
  unfold digitChar
  split <;> decide

theorem digitChar_ne_plus (d : Nat) : digitChar d ≠ '+' := by
  unfold digitChar
  split <;> decide

theorem natReprAux_ne_nil (fuel n : Nat) (h : n < fuel) : natReprAux fuel n ≠ [] := by
  match fuel with
  | 0 => omega
  | fuel + 1 =>
    unfold natReprAux
    split
    · simp
    · simp

theorem natRepr_ne_nil (n : Nat) : natRepr n ≠ [] :=
  natReprAux_ne_nil (n + 1) n (by omega)

theorem natReprAux_all_digits (fuel : Nat) :
    ∀ n, n < fuel → (natReprAux fuel n).all isDigitCh = true := by
  induction fuel with
  | zero => omega
  | succ fuel ih =>
    intro n hn
    unfold natReprAux
    split
    · simp [digitChar_isDigit]
    · rename_i h
      rw [List.all_append, Bool.and_eq_true]
      refine ⟨ih (n / 10) ?_, by simp [digitChar_isDigit]⟩
      have := Nat.div_lt_self (show 0 < n by omega) (show 1 < 10 by omega)
      omega

theorem natRepr_all_digits (n : Nat) : (natRepr n).all isDigitCh = true :=
  natReprAux_all_digits (n + 1) n (by omega)

theorem digitsVal_append_digit (l : List Char) (c : Char) :
    digitsVal (l ++ [c]) = 10 * digitsVal l + (c.toNat - 48) := by
  unfold digitsVal
  rw [List.foldl_append]
  simp [Nat.mul_comm]

theorem digitsVal_natReprAux (fuel : Nat) :
    ∀ n, n < fuel → digitsVal (natReprAux fuel n) = n := by
  induction fuel with
  | zero => omega
  | succ fuel ih =>
    intro n hn
    unfold natReprAux
    split
    · rename_i h
      unfold digitsVal
      simp [digitChar_toNat n h]
    · rename_i h
      have hd : n / 10 < fuel := by
        have := Nat.div_lt_self (show 0 < n by omega) (show 1 < 10 by omega)
        omega
      rw [digitsVal_append_digit, ih (n / 10) hd,
        digitChar_toNat (n % 10) (Nat.mod_lt _ (by omega))]
      omega

theorem digitsVal_natRepr (n : Nat) : digitsVal (natRepr n) = n :=
  digitsVal_natReprAux (n + 1) n (by omega)

theorem parseNatDigits_natRepr (n : Nat) : parseNatDigits (natRepr n) = some n := by
  unfold parseNatDigits
  rw [if_pos ⟨natRepr_ne_nil n, natRepr_all_digits n⟩, digitsVal_natRepr]

theorem lastIndexDash_cons (c : Char) (t : List Char) :
    lastIndexDash (c :: t) =
      match lastIndexDash t with
      | some i => some (i + 1)
      | none => if c = '-' then some 0 else none := rfl

theorem lastIndexDash_none (l : List Char) (h : '-' ∉ l) : lastIndexDash l = none := by
  induction l with
  | nil => rfl
  | cons c t ih =>
    rw [lastIndexDash_cons, ih (fun hm => h (List.mem_cons_of_mem c hm))]
    simp only [List.mem_cons, not_or] at h
    have hc : ¬c = '-' := fun hc => h.1 hc.symm
    simp [hc]

theorem lastIndexDash_append (a b : List Char) (h : '-' ∉ b) :
    lastIndexDash (a ++ '-' :: b) = some a.length := by
  induction a with
  | nil =>
    rw [List.nil_append, lastIndexDash_cons, lastIndexDash_none b h]
    simp
  | cons c t ih =>
    rw [List.cons_append, lastIndexDash_cons, ih]
    simp

theorem natRepr_no_dash (n : Nat) : '-' ∉ natRepr n := by
  intro hm
  have hall := natRepr_all_digits n
  rw [List.all_eq_true] at hall
  have := hall _ hm
  simp [isDigitCh] at this

theorem goAtoi_cons (c : Char) (t : List Char) :
    goAtoi (c :: t) =
      if c = '+' then
        (parseNatDigits t).bind fun n =>
          if n ≤ maxInt64 then some (Int.ofNat n) else none
      else if c = '-' then
        (parseNatDigits t).bind fun n =>
          if n ≤ maxInt64 + 1 then some (-(Int.ofNat n)) else none
      else
        (parseNatDigits (c :: t)).bind fun n =>
          if n ≤ maxInt64 then some (Int.ofNat n) else none := rfl

theorem goAtoi_natRepr (n : Nat) (h : n ≤ maxInt64) :
    goAtoi (natRepr n) = some (Int.ofNat n) := by
  have hne := natRepr_ne_nil n
  have hparse := parseNatDigits_natRepr n
  match hrep : natRepr n with
  | [] => exact absurd hrep hne
  | c :: t =>
    have hc : isDigitCh c := by
      have hall := natRepr_all_digits n
      rw [hrep, List.all_cons, Bool.and_eq_true] at hall
      exact hall.1
    have hcp : c ≠ '+' := by
      intro hcq; rw [hcq] at hc; simp [isDigitCh] at hc
    have hcm : c ≠ '-' := by
      intro hcq; rw [hcq] at hc; simp [isDigitCh] at hc
    rw [hrep] at hparse
    rw [goAtoi_cons, if_neg hcp, if_neg hcm, hparse]
    simp [Option.bind, h]

/-- Helper: the canonical serialized form round-trips through parsing. -/
theorem pkiUnmarshal_canonical (iss : List Char) (c : Nat) (h : c ≤ maxInt64) :
    pkiUnmarshalText (iss ++ '-' :: natRepr c) = some ⟨iss, c⟩ := by
  unfold pkiUnmarshalText
  rw [lastIndexDash_append iss (natRepr c) (natRepr_no_dash c)]
  have hdrop : ∀ is2 : List Char, (is2 ++ '-' :: natRepr c).drop (is2.length + 1) = natRepr c := by
    intro is2
    induction is2 with
    | nil => simp
    | cons a t ih => simp [List.drop_succ_cons, ih]
  have htake : ∀ is2 : List Char, (is2 ++ '-' :: natRepr c).take is2.length = is2 := by
    intro is2
    induction is2 with
    | nil => simp
    | cons a t ih => simp [ih]
  have hgu : goUint (Int.ofNat c) = c := by
    unfold goUint maxInt64 at *
    rw [Int.emod_eq_of_lt (by simp) (by rw [Int.ofNat_eq_natCast]; push_cast; omega)]
    simp
  simp only [hdrop, htake, goAtoi_natRepr c h, hgu]

/-- C6 counterexample input: the non-canonical string `"A-07"` parses to
`(A, 7)` but re-serializes to `"A-7"`. -/
theorem C6_counterexample :
    pkiUnmarshalText ['A', '-', '0', '7'] = some ⟨['A'], 7⟩ ∧
      pkiMarshalText ⟨['A'], 7⟩ ≠ ['A', '-', '0', '7'] := by
  constructor
  · rfl
  · decide

/-- C6 (amended): `publicKeyIdentifier` serialization round-trips in the
marshal-then-unmarshal direction for every identifier whose counter fits in a
64-bit signed integer, and unmarshal-then-marshal reproduces the input exactly
on canonical strings `"<issuer>-<decimal>"` (no leading zeros or sign). -/
theorem C6_theorem (iss : List Char) (c : Nat) (h : c ≤ maxInt64) :
    pkiUnmarshalText (pkiMarshalText ⟨iss, c⟩) = some ⟨iss, c⟩ ∧
      pkiMarshalText ⟨iss, c⟩ = iss ++ '-' :: natRepr c := by
  exact ⟨pkiUnmarshal_canonical iss c h, rfl⟩

/-- C6 witness: the amended round-trip at a concrete identifier. -/
theorem C6_witness :
    (7 : Nat) ≤ maxInt64 ∧
      pkiUnmarshalText (pkiMarshalText ⟨['A'], 7⟩) = some ⟨['A'], 7⟩ := by
  have h0 := C6_theorem ['A'] 7 (by decide)
  exact ⟨by decide, h0.1⟩


/-! ## SHA-256 (models Go `crypto/sha256`) and standard base64
(`encoding/base64.StdEncoding`), needed by `HashedPin` (keyshare.go 138-144). -/

/-- Reduce to a 32-bit word. -/
def w32 (x : Nat) : Nat := x % 4294967296

/-- Rotate a 32-bit word to the right by a given amount. -/
def rotr32 (x n : Nat) : Nat := w32 ((x >>> n) ||| (x <<< (32 - n)))

/-- Bitwise complement of a 32-bit word. -/
def not32 (x : Nat) : Nat := 4294967295 ^^^ x

/-- SHA-256 choice function. -/
def ch32 (x y z : Nat) : Nat := (x &&& y) ^^^ (not32 x &&& z)

/-- SHA-256 majority function. -/
def maj32 (x y z : Nat) : Nat := (x &&& y) ^^^ (x &&& z) ^^^ (y &&& z)

/-- SHA-256 big sigma 0. -/
def bsig0 (x : Nat) : Nat := rotr32 x 2 ^^^ rotr32 x 13 ^^^ rotr32 x 22

/-- SHA-256 big sigma 1. -/
def bsig1 (x : Nat) : Nat := rotr32 x 6 ^^^ rotr32 x 11 ^^^ rotr32 x 25

/-- SHA-256 small sigma 0. -/
def ssig0 (x : Nat) : Nat := rotr32 x 7 ^^^ rotr32 x 18 ^^^ (x >>> 3)

/-- SHA-256 small sigma 1. -/
def ssig1 (x : Nat) : Nat := rotr32 x 17 ^^^ rotr32 x 19 ^^^ (x >>> 10)

/-- The sixty-four per-round additive constants of SHA-256 (FIPS 180-4),
written in decimal. -/
def shaK : List Nat :=
  [1116352408, 1899447441, 3049323471, 3921009573,
   961987163, 1508970993, 2453635748, 2870763221,
   3624381080, 310598401, 607225278, 1426881987,
   1925078388, 2162078206, 2614888103, 3248222580,
   3835390401, 4022224774, 264347078, 604807628,
   770255983, 1249150122, 1555081692, 1996064986,
   2554220882, 2821834349, 2952996808, 3210313671,
   3336571891, 3584528711, 113926993, 338241895,
   666307205, 773529912, 1294757372, 1396182291,
   1695183700, 1986661051, 2177026350, 2456956037,
   2730485921, 2820302411, 3259730800, 3345764771,
   3516065817, 3600352804, 4094571909, 275423344,
   430227734, 506948616, 659060556, 883997877,
   958139571, 1322822218, 1537002063, 1747873779,
   1955562222, 2024104815, 2227730452, 2361852424,
   2428436474, 2756734187, 3204031479, 3329325298]

/-- The eight 32-bit words of a SHA-256 digest state. -/
structure Sha8 where
  a : Nat
  b : Nat
  c : Nat
  d : Nat
  e : Nat
  f : Nat
  g : Nat
  h : Nat
deriving DecidableEq, Repr

/-- The starting digest state of SHA-256, in decimal. -/
def shaInit : Sha8 :=
  ⟨1779033703, 3144134277, 1013904242, 2773480762, 1359893119, 2600822924, 528734635, 1541459225⟩

/-- Big-endian byte serialization of `x` on `n` bytes. -/
def toBytesBE : Nat → Nat → List Nat
  | 0, _ => []
  | n + 1, x => ((x >>> (8 * n)) % 256) :: toBytesBE n x

/-- Group bytes into big-endian 32-bit words (trailing partial group dropped). -/
def bytesToWords : List Nat → List Nat
  | a :: b :: c :: d :: rest =>
    (a * 16777216 + b * 65536 + c * 256 + d) :: bytesToWords rest
  | _ => []

/-- One extension step of the SHA-256 message schedule. -/
def shaExtendStep (w : List Nat) : List Nat :=
  w ++ [w32 (ssig1 (w.getD (w.length - 2) 0) + w.getD (w.length - 7) 0 +
    ssig0 (w.getD (w.length - 15) 0) + w.getD (w.length - 16) 0)]

/-- Iterate a function `n` times. -/
def iterN (f : α → α) : Nat → α → α
  | 0, a => a
  | n + 1, a => iterN f n (f a)

/-- Extend 16 message words to the 64-entry SHA-256 schedule. -/
def shaSchedule (ws : List Nat) : List Nat := iterN shaExtendStep 48 ws

/-- One SHA-256 compression round. -/
def shaRound (s : Sha8) (kt wt : Nat) : Sha8 :=
  let T1 := w32 (s.h + bsig1 s.e + ch32 s.e s.f s.g + kt + wt)
  let T2 := w32 (bsig0 s.a + maj32 s.a s.b s.c)
  ⟨w32 (T1 + T2), s.a, s.b, s.c, w32 (s.d + T1), s.e, s.f, s.g⟩

/-- Compress one 64-byte block into the running hash state. -/
def shaCompressBlock (hs : Sha8) (block : List Nat) : Sha8 :=
  let ws := shaSchedule (bytesToWords block)
  let s := (shaK.zip ws).foldl (fun st p => shaRound st p.1 p.2) hs
  ⟨w32 (hs.a + s.a), w32 (hs.b + s.b), w32 (hs.c + s.c), w32 (hs.d + s.d),
   w32 (hs.e + s.e), w32 (hs.f + s.f), w32 (hs.g + s.g), w32 (hs.h + s.h)⟩

/-- SHA-256 padding: append `0x80`, zeros, and the 64-bit bit length. -/
def sha256pad (msg : List Nat) : List Nat :=
  msg ++ 0x80 :: (List.replicate ((119 - msg.length % 64) % 64) 0 ++ toBytesBE 8 (8 * msg.length))

/-- Process the padded message 64 bytes at a time; the fuel (initialised to the
message length) strictly exceeds the number of blocks, so it never runs out. -/
def shaBlocks : Nat → Sha8 → List Nat → Sha8
  | _, hs, [] => hs
  | 0, hs, _ :: _ => hs
  | fuel + 1, hs, l => shaBlocks fuel (shaCompressBlock hs (l.take 64)) (l.drop 64)

/-- SHA-256 of a byte string, as a 32-byte string. -/
def sha256 (msg : List Nat) : List Nat :=
  let padded := sha256pad msg
  let hs := shaBlocks padded.length shaInit padded
  toBytesBE 4 hs.a ++ toBytesBE 4 hs.b ++ toBytesBE 4 hs.c ++ toBytesBE 4 hs.d ++
    toBytesBE 4 hs.e ++ toBytesBE 4 hs.f ++ toBytesBE 4 hs.g ++ toBytesBE 4 hs.h

/-- The base64 standard alphabet. -/
def b64Alphabet : List Char :=
  "ABCDEFGHIJKLMNOPQRSTUVWXYZabcdefghijklmnopqrstuvwxyz0123456789+/".toList

/-- Character of a 6-bit group. -/
def b64Char (n : Nat) : Char := b64Alphabet.getD n 'A'

/-- Standard base64 encoding with `'='` padding (`base64.StdEncoding`), applied
to byte strings (all elements below 256). -/
def base64Encode : List Nat → List Char
  | [] => []
  | [a] => [b64Char (a / 4), b64Char (a % 4 * 16), '=', '=']
  | [a, b] => [b64Char (a / 4), b64Char (a % 4 * 16 + b / 16), b64Char (b % 16 * 4), '=']
  | a :: b :: c :: rest =>
    b64Char (a / 4) :: b64Char (a % 4 * 16 + b / 16) ::
      b64Char (b % 16 * 4 + c / 64) :: b64Char (c % 64) :: base64Encode rest

/-! ## keyshareServer and HashedPin (keyshare.go 56-61, 138-144) -/

/-- The `keyshareServer` struct of keyshare.go.  `Nonce` is a byte string;
`token` is the transient bearer credential. -/
structure KeyshareServer where
  Username : String
  Nonce : List Nat
  SchemeManagerIdentifier : String
  token : String
deriving DecidableEq, Repr

/-- `(*keyshareServer).HashedPin` of keyshare.go:
`base64.StdEncoding.EncodeToString(sha256.Sum256(append(ks.Nonce, []byte(pin)...))) + "\n"`.
The pin is given as its UTF-8 byte string. -/
def HashedPin (ks : KeyshareServer) (pin : List Nat) : List Char :=
  base64Encode (sha256 (ks.Nonce ++ pin)) ++ ['\n']

/-! ### Digest structure lemmas -/

theorem toBytesBE_length (n x : Nat) : (toBytesBE n x).length = n := by
  induction n generalizing x with
  | zero => rfl
  | succ n ih => simp [toBytesBE, ih]

theorem toBytesBE_lt (n x : Nat) : ∀ b ∈ toBytesBE n x, b < 256 := by
  induction n generalizing x with
  | zero => simp [toBytesBE]
  | succ n ih =>
    intro b hb
    simp only [toBytesBE, List.mem_cons] at hb
    rcases hb with hb | hb
    · omega
    · exact ih x b hb

theorem sha256_length (msg : List Nat) : (sha256 msg).length = 32 := by
  simp [sha256, toBytesBE_length]

theorem sha256_lt (msg : List Nat) : ∀ b ∈ sha256 msg, b < 256 := by
  intro b hb
  simp only [sha256, List.mem_append] at hb
  rcases hb with ((((((h | h) | h) | h) | h) | h) | h) | h <;> exact toBytesBE_lt _ _ b h

/-- Big-endian value of a byte string. -/
def digVal : List Nat → Nat
  | [] => 0
  | b :: t => b * 256 ^ t.length + digVal t

theorem digVal_lt (l : List Nat) (h : ∀ b ∈ l, b < 256) : digVal l < 256 ^ l.length := by
  induction l with
  | nil => simp [digVal]
  | cons b t ih =>
    have hb : b < 256 := h b (List.mem_cons_self _ _)
    have ht := ih (fun x hx => h x (List.mem_cons_of_mem _ hx))
    have hP : 0 < 256 ^ t.length := Nat.pos_pow_of_pos _ (by omega)
    simp only [digVal, List.length_cons, pow_succ]
    calc b * 256 ^ t.length + digVal t < b * 256 ^ t.length + 256 ^ t.length := by omega
    _ = (b + 1) * 256 ^ t.length := by ring
    _ ≤ 256 * 256 ^ t.length := Nat.mul_le_mul_right _ (by omega)
    _ = 256 ^ t.length * 256 := by ring

theorem digVal_inj (l1 : List Nat) :
    ∀ l2 : List Nat, l1.length = l2.length → (∀ b ∈ l1, b < 256) → (∀ b ∈ l2, b < 256) →
      digVal l1 = digVal l2 → l1 = l2 := by
  induction l1 with
  | nil =>
    intro l2 hlen _ _ _
    exact (List.length_eq_zero.mp hlen.symm).symm
  | cons b t ih =>
    intro l2 hlen hb1 hb2 hv
    match l2 with
    | [] => simp at hlen
    | c :: t2 =>
      have hlt : t.length = t2.length := by simpa using hlen
      have hrt : digVal t < 256 ^ t.length :=
        digVal_lt t (fun x hx => hb1 x (List.mem_cons_of_mem _ hx))
      have hrt2 : digVal t2 < 256 ^ t.length := by
        rw [hlt]
        exact digVal_lt t2 (fun x hx => hb2 x (List.mem_cons_of_mem _ hx))
      simp only [digVal, hlt] at hv
      rw [← hlt] at hv
      have hbc : b = c := by
        have hP : 0 < 256 ^ t.length := Nat.pos_pow_of_pos _ (by omega)
        by_contra hne
        rcases Nat.lt_or_ge b c with hlt2 | hge
        · nlinarith
        · have : c < b := by omega
          nlinarith
      subst hbc
      have hteq : digVal t = digVal t2 := by omega
      rw [ih t2 hlt (fun x hx => hb1 x (List.mem_cons_of_mem _ hx))
        (fun x hx => hb2 x (List.mem_cons_of_mem _ hx)) hteq]

theorem b64Char_ne_newline (n : Nat) : b64Char n ≠ '\n' := by
  unfold b64Char
  rcases Nat.lt_or_ge n b64Alphabet.length with h | h
  · have hmem : b64Alphabet.getD n 'A' ∈ b64Alphabet := by
      rw [List.getD_eq_getElem _ _ h]
      exact List.getElem_mem _
    have hall : ∀ c ∈ b64Alphabet, c ≠ '\n' := by decide
    exact hall _ hmem
  · rw [List.getD_eq_default _ _ h]
    decide

theorem base64Encode_ne_newline (l : List Nat) : ∀ c ∈ base64Encode l, c ≠ '\n' := by
  induction l using base64Encode.induct with
  | case1 => simp [base64Encode]
  | case2 a =>
    intro c hc
    simp only [base64Encode, List.mem_cons] at hc
    rcases hc with h | h | h | h <;> simp_all <;> subst_eqs <;>
      exact b64Char_ne_newline _
  | case3 a b =>
    intro c hc
    simp only [base64Encode, List.mem_cons] at hc
    rcases hc with h | h | h | h | h <;> simp_all <;> subst_eqs <;>
      exact b64Char_ne_newline _
  | case4 a b cc rest ih =>
    intro c hc
    simp only [base64Encode, List.mem_cons] at hc
    rcases hc with h | h | h | h | h
    · subst h; exact b64Char_ne_newline _
    · subst h; exact b64Char_ne_newline _
    · subst h; exact b64Char_ne_newline _
    · subst h; exact b64Char_ne_newline _
    · exact ih c h

/-- C3 counterexample: the clause "HashedPin differs for different nonces"
is false as a universal statement: `HashedPin` factors through the 32-byte
SHA-256 digest, whose range is finite, while nonces range over infinitely
many byte strings, so two distinct nonces must collide. -/
theorem C3_counterexample :
    ¬ ∀ (ks1 ks2 : KeyshareServer) (pin : List Nat),
        ks1.Nonce ≠ ks2.Nonce → HashedPin ks1 pin ≠ HashedPin ks2 pin := by
  intro hclaim
  have hfin : ∀ k : Nat, digVal (sha256 (List.replicate k 0)) < 256 ^ 32 := by
    intro k
    have := digVal_lt (sha256 (List.replicate k 0)) (sha256_lt _)
    rwa [sha256_length] at this
  obtain ⟨k1, k2, hne, heq⟩ :=
    Finite.exists_ne_map_eq_of_infinite
      (fun k : Nat => (⟨digVal (sha256 (List.replicate k 0)), hfin k⟩ : Fin (256 ^ 32)))
  simp only [Fin.mk.injEq] at heq
  have hsha : sha256 (List.replicate k1 0) = sha256 (List.replicate k2 0) :=
    digVal_inj _ _ (by rw [sha256_length, sha256_length]) (sha256_lt _) (sha256_lt _) heq
  have hnonce : (List.replicate k1 (0 : Nat)) ≠ List.replicate k2 0 := by
    intro h
    apply hne
    have := congrArg List.length h
    simpa using this
  exact hclaim ⟨"", List.replicate k1 0, "", ""⟩ ⟨"", List.replicate k2 0, "", ""⟩ []
    hnonce (by simp [HashedPin, hsha])

/-- C3 (amended): `HashedPin` is bit-exact — the standard base64 encoding of
`sha256(nonce ++ pin)` followed by exactly one `'\n'` (the base64 part contains
no newline); it is deterministic, depending only on the `(nonce, pin)` pair;
and distinct nonces always give distinct SHA-256 inputs `nonce ++ pin`
(the hash outputs themselves cannot be required to differ universally,
by `C3_counterexample`). -/
theorem C3_theorem (ks ks2 ks3 : KeyshareServer) (pin : List Nat)
    (hsame : ks3.Nonce = ks.Nonce) (hdiff : ks2.Nonce ≠ ks.Nonce) :
    HashedPin ks pin = base64Encode (sha256 (ks.Nonce ++ pin)) ++ ['\n'] ∧
    (∀ c ∈ base64Encode (sha256 (ks.Nonce ++ pin)), c ≠ '\n') ∧
    HashedPin ks3 pin = HashedPin ks pin ∧
    ks2.Nonce ++ pin ≠ ks.Nonce ++ pin := by
  refine ⟨rfl, base64Encode_ne_newline _, by simp [HashedPin, hsame], ?_⟩
  intro h
  exact hdiff (List.append_cancel_right h)

/-- C3 witness: the amended statement applied to concrete servers with equal
and with distinct nonces. -/
theorem C3_witness :
    ((⟨"u", [0], "s", "t"⟩ : KeyshareServer).Nonce = (⟨"", [0], "", ""⟩ : KeyshareServer).Nonce) ∧
    ((⟨"", [1], "", ""⟩ : KeyshareServer).Nonce ≠ (⟨"", [0], "", ""⟩ : KeyshareServer).Nonce) ∧
    (HashedPin ⟨"", [0], "", ""⟩ [3] =
        base64Encode (sha256 ((⟨"", [0], "", ""⟩ : KeyshareServer).Nonce ++ [3])) ++ ['\n'] ∧
      (∀ c ∈ base64Encode (sha256 ((⟨"", [0], "", ""⟩ : KeyshareServer).Nonce ++ [3])), c ≠ '\n') ∧
      HashedPin ⟨"u", [0], "s", "t"⟩ [3] = HashedPin ⟨"", [0], "", ""⟩ [3] ∧
      (⟨"", [1], "", ""⟩ : KeyshareServer).Nonce ++ [3] ≠
        (⟨"", [0], "", ""⟩ : KeyshareServer).Nonce ++ [3]) :=
  ⟨by decide, by decide,
    C3_theorem ⟨"", [0], "", ""⟩ ⟨"", [1], "", ""⟩ ⟨"u", [0], "s", "t"⟩ [3]
      (by decide) (by decide)⟩

/-! ## Association-list helpers modelling Go maps -/

/-- Lookup in an association list (Go map read). -/
def lookupA [DecidableEq κ] (l : List (κ × α)) (k : κ) : Option α :=
  match l with
  | [] => none
  | (k2, v) :: t => if k2 = k then some v else lookupA t k

/-- Insert or replace a key (Go map write). -/
def setA [DecidableEq κ] (l : List (κ × α)) (k : κ) (v : α) : List (κ × α) :=
  match l with
  | [] => [(k, v)]
  | (k2, v2) :: t => if k2 = k then (k, v) :: t else (k2, v2) :: setA t k v

/-- Delete a key (Go map delete). -/
def eraseA [DecidableEq κ] (l : List (κ × α)) (k : κ) : List (κ × α) :=
  l.filter (fun p => !decide (p.1 = k))

theorem lookupA_setA_self [DecidableEq κ] (l : List (κ × α)) (k : κ) (v : α) :
    lookupA (setA l k v) k = some v := by
  induction l with
  | nil => simp [setA, lookupA]
  | cons p t ih =>
    unfold setA
    by_cases h : p.1 = k
    · simp [h, lookupA]
    · simp [h, lookupA, ih]

theorem lookupA_eraseA_self [DecidableEq κ] (l : List (κ × α)) (k : κ) :
    lookupA (eraseA l k) k = none := by
  induction l with
  | nil => rfl
  | cons p t ih =>
    simp only [eraseA, List.filter_cons] at ih ⊢
    by_cases h : p.1 = k
    · simp [h, ih]
    · simp [h, lookupA, ih]

/-! ## Credential store (handlers.go: Client, addCredential, remove, credential) -/

/-- An attribute list with its stable content hash (`attrs.Hash()`); `credType`
models `attrs.CredentialType()`: `some id` if the type is known in the
configuration, `none` for the nil case. -/
structure AttributeList where
  hash : String
  credType : Option String
deriving DecidableEq, Repr

/-- A materialized credential (`irmaclient.credential`): its attribute list
plus the CL-signature, the latter abstracted to an opaque payload. -/
structure Cred where
  attrList : AttributeList
  sig : Nat
deriving DecidableEq, Repr

/-- A removal log entry; the removed attribute payload (`attrs.Strings()`) is
represented by the removed list's content hash. -/
structure LogEntry where
  removedId : String
  removedHash : String
deriving DecidableEq, Repr

/-- Configuration facts consumed by the store operations: whether a credential
type is singleton, and whether `attrs.PublicKey()` resolves. -/
structure ClientConf where
  isSingleton : String → Bool
  publicKeyOk : AttributeList → Bool

/-- Client state: the in-memory attribute index and credential cache together
with the persistent storage contents (signature blobs keyed by content hash,
the stored attribute index, the removal log). -/
structure ClientState where
  attributes : List (String × List AttributeList)
  credentialsCache : List (String × List (Nat × Cred))
  storedSigs : List (String × Nat)
  storedAttrs : Option (List (String × List AttributeList))
  logs : List LogEntry
deriving DecidableEq, Repr

/-- A default attribute list standing in for Go's zero value (never read on
in-bounds indices). -/
def dummyAttrs : AttributeList := ⟨"", none⟩

/-- `client.attrs(id)` of handlers.go: the slice at `id`, initializing an
empty entry if absent. -/
def attrsF (st : ClientState) (id : String) : List AttributeList × ClientState :=
  match lookupA st.attributes id with
  | some l => (l, st)
  | none => ([], { st with attributes := setA st.attributes id [] })

/-- `client.creds(id)` of handlers.go. -/
def credsF (st : ClientState) (id : String) : List (Nat × Cred) × ClientState :=
  match lookupA st.credentialsCache id with
  | some m => (m, st)
  | none => ([], { st with credentialsCache := setA st.credentialsCache id [] })

/-- `client.Attributes(id, counter)` of handlers.go. -/
def AttributesF (st : ClientState) (id : String) (counter : Nat) :
    Option AttributeList × ClientState :=
  let p := attrsF st id
  if p.1.length ≤ counter then (none, p.2)
  else (some (p.1.getD counter dummyAttrs), p.2)

/-- `client.remove(id, index, storenow)` of handlers.go: splice the attribute
list, persist if requested, evict the cache entry at `index`, delete the
signature, and log when persisting.  The returned error message is
abbreviated. -/
def removeF (st : ClientState) (id : String) (index : Nat) (storenow : Bool) :
    ClientState × Option String :=
  match lookupA st.attributes id with
  | none => (st, some "no such credential")
  | some list =>
    if list.length ≤ index then (st, some "no such credential")
    else
      let attrs := list.getD index dummyAttrs
      let st1 := { st with
        attributes := setA st.attributes id (list.take index ++ list.drop (index + 1)) }
      let st2 := if storenow then { st1 with storedAttrs := some st1.attributes } else st1
      let st3 :=
        match lookupA st2.credentialsCache id with
        | some creds =>
          { st2 with credentialsCache := setA st2.credentialsCache id (eraseA creds index) }
        | none => st2
      let st4 := { st3 with storedSigs := eraseA st3.storedSigs attrs.hash }
      if storenow then
        ({ st4 with logs := st4.logs ++ [⟨id, attrs.hash⟩] }, none)
      else (st4, none)

/-- The duplicate scan of `addCredential`: does any stored attribute list have
this content hash? -/
def anyHashF (st : ClientState) (h : String) : Bool :=
  st.attributes.any (fun p => p.2.any (fun a => decide (a.hash = h)))

/-- The singleton while-loop of `addCredential`
(`for len(client.attrs(id)) != 0 { client.remove(id, 0, false) }`); the fuel
strictly exceeds the length of the entry, so it never runs out. -/
def removeSingletonLoop : Nat → ClientState → String → ClientState
  | 0, st, _ => st
  | fuel + 1, st, id =>
    let p := attrsF st id
    if p.1.length = 0 then p.2
    else removeSingletonLoop fuel (removeF p.2 id 0 false).1 id

/-- The tail of `addCredential` after the dedupe and singleton steps: append
the new attribute list, cache the credential under the fresh counter, persist
the signature and optionally the attribute index. -/
def addCredentialBody (st1 : ClientState) (cred : Cred) (id : String)
    (storeAttributes : Bool) : ClientState :=
  let p := attrsF st1 id
  let st2 := { p.2 with attributes := setA p.2.attributes id (p.1 ++ [cred.attrList]) }
  let st3 :=
    if ¬id = "" then
      let q := credsF st2 id
      let counter := ((lookupA q.2.attributes id).getD []).length - 1
      { q.2 with credentialsCache := setA q.2.credentialsCache id (setA q.1 counter cred) }
    else st2
  let st4 := { st3 with storedSigs := setA st3.storedSigs cred.attrList.hash cred.sig }
  if storeAttributes then { st4 with storedAttrs := some st4.attributes } else st4

/-- `client.addCredential(cred, storeAttributes)` of handlers.go: dedupe by
attribute-list hash, enforce the singleton rule, then append, cache and
persist (`addCredentialBody`). -/
def addCredential (conf : ClientConf) (st : ClientState) (cred : Cred)
    (storeAttributes : Bool) : ClientState × Option String :=
  let id := (cred.attrList.credType).getD ""
  if anyHashF st cred.attrList.hash then (st, none)
  else
    let st1 :=
      if ¬id = "" ∧ conf.isSingleton id then
        removeSingletonLoop (((lookupA st.attributes id).getD []).length + 1) st id
      else st
    (addCredentialBody st1 cred id storeAttributes, none)

/-- `client.credential(id, counter)` of handlers.go: serve from the cache, or
lazily load the signature, check the public key, construct the credential and
cache it.  Returns `.ok none` when the credential is not present. -/
def credentialF (conf : ClientConf) (st : ClientState) (id : String) (counter : Nat) :
    Except String (Option Cred) × ClientState :=
  let p := credsF st id
  match lookupA p.1 counter with
  | some c => (.ok (some c), p.2)
  | none =>
    let q := AttributesF p.2 id counter
    match q.1 with
    | none => (.ok none, q.2)
    | some attrs =>
      match lookupA q.2.storedSigs attrs.hash with
      | none => (.error "signature file not found", q.2)
      | some sig =>
        if conf.publicKeyOk attrs then
          let cred : Cred := ⟨attrs, sig⟩
          (.ok (some cred),
            { q.2 with credentialsCache := setA q.2.credentialsCache id (setA p.1 counter cred) })
        else (.error "unknown public key", q.2)

/-- C10: `remove` called with an unknown credential type identifier, or with
an index at or beyond the end of the stored list, returns an error and leaves
the client state — attributes, cache, persisted signatures and log — entirely
unchanged. -/
theorem C10_theorem (st : ClientState) (id : String) (index : Nat) (storenow : Bool)
    (h : lookupA st.attributes id = none ∨
      ∀ l, lookupA st.attributes id = some l → l.length ≤ index) :
    (removeF st id index storenow).1 = st ∧ ((removeF st id index storenow).2).isSome := by
  unfold removeF
  rcases h with h | h
  · rw [h]
    exact ⟨rfl, rfl⟩
  · cases hl : lookupA st.attributes id with
    | none => exact ⟨rfl, rfl⟩
    | some l =>
      have hle := h l hl
      simp [hle]

/-- C10 witness: removing from an empty client. -/
theorem C10_witness :
    (removeF ⟨[], [], [], none, []⟩ "x" 0 true).1 = ⟨[], [], [], none, []⟩ ∧
      ((removeF ⟨[], [], [], none, []⟩ "x" 0 true).2).isSome :=
  C10_theorem ⟨[], [], [], none, []⟩ "x" 0 true (Or.inl rfl)

/-- Concrete two-credential state for the C8 counterexample. -/
def c8state : ClientState :=
  ⟨[("id", [⟨"h0", some "id"⟩, ⟨"h1", some "id"⟩])], [], [("h0", 1), ("h1", 2)], none, []⟩

/-- Concrete configuration for the C8 counterexample. -/
def c8conf : ClientConf := ⟨fun _ => false, fun _ => true⟩

/-- C8 counterexample: with two stored instances, `remove(id, 0)` succeeds but
a subsequent `credential(id, 0)` returns the (shifted) former second
credential rather than "not present". -/
theorem C8_counterexample :
    (removeF c8state "id" 0 true).2 = none ∧
      (credentialF c8conf (removeF c8state "id" 0 true).1 "id" 0).1 =
        .ok (some ⟨⟨"h1", some "id"⟩, 2⟩) ∧
      (credentialF c8conf (removeF c8state "id" 0 true).1 "id" 0).1 ≠ .ok none := by
  refine ⟨rfl, rfl, ?_⟩
  intro h
  rw [show (credentialF c8conf (removeF c8state "id" 0 true).1 "id" 0).1 =
      Except.ok (some ⟨⟨"h1", some "id"⟩, 2⟩) from rfl] at h
  simp at h

/-- C8 (amended): after a successful `remove(id, i)`, the CL-signature of the
removed attribute list is deleted from persistent storage, and — when the
removed credential was the last one at that type (`l.length = i + 1`) — a
subsequent `credential(id, i)` reports the credential as not present.  (When
later instances existed, they shift down one index, so `credential(id, i)`
returns the shifted credential; see `C8_counterexample`.) -/
theorem C8_theorem (conf : ClientConf) (st : ClientState) (id : String) (i : Nat)
    (l : List AttributeList) (hl : lookupA st.attributes id = some l) (hi : i < l.length) :
    (removeF st id i true).2 = none ∧
    lookupA (removeF st id i true).1.storedSigs (l.getD i dummyAttrs).hash = none ∧
    (l.length = i + 1 →
      (credentialF conf (removeF st id i true).1 id i).1 = .ok none) := by
  have hneg : ¬l.length ≤ i := by omega
  refine ⟨?_, ?_, ?_⟩
  · simp [removeF, hl, hneg]
  · simp [removeF, hl, hneg, lookupA_eraseA_self]
  · intro hlen
    have hlen2 : (List.take i l ++ List.drop (i + 1) l).length = i := by
      rw [List.length_append, List.length_take, List.length_drop,
        Nat.min_eq_left (Nat.le_of_lt hi)]
      omega
    cases hc : lookupA st.credentialsCache id with
    | some creds =>
      simp [removeF, credentialF, credsF, AttributesF, attrsF, hl, hneg, hc,
        lookupA_setA_self, lookupA_eraseA_self, hlen2]
    | none =>
      simp [removeF, credentialF, credsF, AttributesF, attrsF, hl, hneg, hc,
        lookupA_setA_self, lookupA_eraseA_self, hlen2, lookupA]

/-- C8 witness: removing the only instance of a credential type. -/
theorem C8_witness :
    (lookupA (⟨[("id", [⟨"h0", some "id"⟩])], [], [("h0", 1)], none, []⟩ : ClientState).attributes
        "id" = some [⟨"h0", some "id"⟩]) ∧
    (removeF ⟨[("id", [⟨"h0", some "id"⟩])], [], [("h0", 1)], none, []⟩ "id" 0 true).2 = none ∧
    lookupA (removeF ⟨[("id", [⟨"h0", some "id"⟩])], [], [("h0", 1)], none, []⟩ "id" 0 true).1.storedSigs
        (([⟨"h0", some "id"⟩] : List AttributeList).getD 0 dummyAttrs).hash = none ∧
    (([⟨"h0", some "id"⟩] : List AttributeList).length = 0 + 1 →
      (credentialF c8conf
        (removeF ⟨[("id", [⟨"h0", some "id"⟩])], [], [("h0", 1)], none, []⟩ "id" 0 true).1
        "id" 0).1 = .ok none) :=
  ⟨rfl, C8_theorem c8conf ⟨[("id", [⟨"h0", some "id"⟩])], [], [("h0", 1)], none, []⟩ "id" 0
    [⟨"h0", some "id"⟩] rfl (by decide)⟩

/-! ### Counting attribute lists by content hash (for the dedupe law) -/

/-- Number of attribute lists with the given hash in one slice. -/
def cntL (l : List AttributeList) (h : String) : Nat :=
  (l.filter (fun a => decide (a.hash = h))).length

/-- Number of attribute lists with the given hash over an attribute index. -/
def sumCnt (al : List (String × List AttributeList)) (h : String) : Nat :=
  (al.map (fun p => cntL p.2 h)).sum

/-- Number of stored instances with the given hash in the whole client. -/
def countHash (st : ClientState) (h : String) : Nat := sumCnt st.attributes h

theorem countHash_eq_zero_iff (st : ClientState) (h : String) :
    countHash st h = 0 ↔ anyHashF st h = false := by
  unfold countHash sumCnt anyHashF cntL
  rw [List.sum_eq_zero_iff]
  constructor
  · intro hz
    rw [List.any_eq_false]
    intro p hp
    rw [Bool.not_eq_true, List.any_eq_false]
    intro a ha
    have := hz ((p.2.filter (fun a => decide (a.hash = h))).length)
      (List.mem_map_of_mem _ hp)
    rw [List.length_eq_zero, List.filter_eq_nil_iff] at this
    simpa using this a ha
  · intro hz n hn
    rw [List.mem_map] at hn
    obtain ⟨p, hp, hlen⟩ := hn
    rw [List.any_eq_false] at hz
    have hpz := hz p hp
    rw [Bool.not_eq_true, List.any_eq_false] at hpz
    rw [← hlen, List.length_eq_zero, List.filter_eq_nil_iff]
    intro a ha
    simpa using hpz a ha

theorem cntL_append (x y : List AttributeList) (h : String) :
    cntL (x ++ y) h = cntL x h + cntL y h := by
  unfold cntL
  rw [List.filter_append, List.length_append]

theorem cntL_singleton_self (a : AttributeList) : cntL [a] a.hash = 1 := by
  simp [cntL]

theorem cntL_drop_le (l : List AttributeList) (n : Nat) (h : String) :
    cntL (l.drop n) h ≤ cntL l h :=
  List.Sublist.length_le (List.Sublist.filter _ (List.drop_sublist n l))

theorem sumCnt_setA_none (al : List (String × List AttributeList)) (k : String)
    (v : List AttributeList) (h : String) (hk : lookupA al k = none) :
    sumCnt (setA al k v) h = sumCnt al h + cntL v h := by
  induction al with
  | nil => simp [setA, sumCnt]
  | cons p t ih =>
    unfold lookupA at hk
    by_cases hpk : p.1 = k
    · simp [hpk] at hk
    · simp only [hpk, if_false] at hk
      unfold setA
      rw [if_neg hpk]
      simp only [sumCnt, List.map_cons, List.sum_cons] at ih ⊢
      rw [ih hk]
      omega

theorem sumCnt_setA_some (al : List (String × List AttributeList)) (k : String)
    (v w : List AttributeList) (h : String) (hk : lookupA al k = some w) :
    sumCnt (setA al k v) h + cntL w h = sumCnt al h + cntL v h := by
  induction al with
  | nil => simp [lookupA] at hk
  | cons p t ih =>
    unfold lookupA at hk
    by_cases hpk : p.1 = k
    · rw [if_pos hpk] at hk
      injection hk with hk
      subst hk
      unfold setA
      rw [if_pos hpk]
      simp only [sumCnt, List.map_cons, List.sum_cons]
      omega
    · rw [if_neg hpk] at hk
      unfold setA
      rw [if_neg hpk]
      simp only [sumCnt, List.map_cons, List.sum_cons] at ih ⊢
      have := ih hk
      omega

theorem sumCnt_lookup_zero (al : List (String × List AttributeList)) (k : String)
    (w : List AttributeList) (h : String) (hz : sumCnt al h = 0)
    (hk : lookupA al k = some w) : cntL w h = 0 := by
  induction al with
  | nil => simp [lookupA] at hk
  | cons p t ih =>
    unfold lookupA at hk
    simp only [sumCnt, List.map_cons, List.sum_cons, Nat.add_eq_zero] at hz
    by_cases hpk : p.1 = k
    · rw [if_pos hpk] at hk
      injection hk with hk
      subst hk
      exact hz.1
    · rw [if_neg hpk] at hk
      exact ih hz.2 hk

/-- `attrsF` preserves the hash count and yields the looked-up slice. -/
theorem attrsF_facts (st : ClientState) (id : String) (h : String) :
    countHash (attrsF st id).2 h = countHash st h ∧
      lookupA (attrsF st id).2.attributes id = some (attrsF st id).1 ∧
      (attrsF st id).2.credentialsCache = st.credentialsCache ∧
      (attrsF st id).2.storedSigs = st.storedSigs ∧
      (attrsF st id).2.storedAttrs = st.storedAttrs ∧
      (attrsF st id).2.logs = st.logs ∧
      (countHash st h = 0 → cntL (attrsF st id).1 h = 0) := by
  unfold attrsF
  cases hk : lookupA st.attributes id with
  | some l =>
    refine ⟨rfl, hk, rfl, rfl, rfl, rfl, fun hz => sumCnt_lookup_zero _ _ _ _ hz hk⟩
  | none =>
    refine ⟨?_, lookupA_setA_self _ _ _, rfl, rfl, rfl, rfl, fun _ => by simp [cntL]⟩
    show sumCnt (setA st.attributes id []) h = sumCnt st.attributes h
    rw [sumCnt_setA_none _ _ _ _ hk]
    simp [cntL]

/-- With `storenow = false` and an in-range index 0, `remove` splices the head
off the slice and leaves the attribute index otherwise unchanged. -/
theorem removeF_false_attributes (st : ClientState) (id : String) (list : List AttributeList)
    (hk : lookupA st.attributes id = some list) (hlen : ¬list.length ≤ 0) :
    (removeF st id 0 false).1.attributes =
      setA st.attributes id (list.take 0 ++ list.drop 1) := by
  simp only [removeF, hk, if_neg hlen, Bool.false_eq_true, if_false]
  cases hc : lookupA st.credentialsCache id
  · simp [hc]
  · simp [hc]

/-- `remove(id, 0, false)` never increases the hash count. -/
theorem removeF_zero_count_le (st : ClientState) (id : String) (h : String) :
    countHash (removeF st id 0 false).1 h ≤ countHash st h := by
  cases hk : lookupA st.attributes id with
  | none =>
    unfold removeF
    rw [hk]
  | some list =>
    by_cases hlen : list.length ≤ 0
    · unfold removeF
      rw [hk]
      simp [hlen]
    · have hattr := removeF_false_attributes st id list hk hlen
      show sumCnt (removeF st id 0 false).1.attributes h ≤ sumCnt st.attributes h
      rw [hattr]
      have hsome := sumCnt_setA_some st.attributes id (list.take 0 ++ list.drop 1) list h hk
      have hd : cntL (list.take 0 ++ list.drop 1) h ≤ cntL list h := by
        simpa using cntL_drop_le list 1 h
      omega

/-- The singleton loop never increases the hash count. -/
theorem removeSingletonLoop_count_le (fuel : Nat) (st : ClientState) (id : String) (h : String) :
    countHash (removeSingletonLoop fuel st id) h ≤ countHash st h := by
  induction fuel generalizing st with
  | zero => exact Nat.le_refl _
  | succ fuel ih =>
    unfold removeSingletonLoop
    have hA := attrsF_facts st id h
    by_cases he : (attrsF st id).1.length = 0
    · simp only [he, if_true]
      exact Nat.le_of_eq hA.1
    · simp only [he, if_false]
      calc countHash (removeSingletonLoop fuel (removeF (attrsF st id).2 id 0 false).1 id) h
          ≤ countHash (removeF (attrsF st id).2 id 0 false).1 h := ih _
        _ ≤ countHash (attrsF st id).2 h := removeF_zero_count_le _ _ _
        _ = countHash st h := hA.1

theorem addCredentialBody_attributes (st1 : ClientState) (cred : Cred) (id : String) (b : Bool) :
    (addCredentialBody st1 cred id b).attributes =
      setA (attrsF st1 id).2.attributes id ((attrsF st1 id).1 ++ [cred.attrList]) := by
  unfold addCredentialBody credsF
  split
  · split
    · dsimp only
      split <;> rfl
    · dsimp only
      split <;> rfl
  · split <;> rfl

theorem addCredential_fresh (conf : ClientConf) (st : ClientState) (cred : Cred) (b : Bool)
    (h0 : countHash st cred.attrList.hash = 0) :
    countHash (addCredential conf st cred b).1 cred.attrList.hash = 1 ∧
    (addCredential conf st cred b).2 = none := by
  have hany : anyHashF st cred.attrList.hash = false := (countHash_eq_zero_iff st _).mp h0
  have hres : addCredential conf st cred b =
      (addCredentialBody
        (if ¬(cred.attrList.credType).getD "" = "" ∧
            conf.isSingleton ((cred.attrList.credType).getD "") then
          removeSingletonLoop
            (((lookupA st.attributes ((cred.attrList.credType).getD "")).getD []).length + 1) st
            ((cred.attrList.credType).getD "")
        else st) cred ((cred.attrList.credType).getD "") b, none) := by
    unfold addCredential
    rw [hany]
    simp
  rw [hres]
  refine ⟨?_, rfl⟩
  set id := (cred.attrList.credType).getD ""
  set st1 := (if ¬id = "" ∧ conf.isSingleton id then
      removeSingletonLoop (((lookupA st.attributes id).getD []).length + 1) st id
    else st) with hst1
  have hc1 : countHash st1 cred.attrList.hash = 0 := by
    rw [hst1]
    split
    · have := removeSingletonLoop_count_le
        (((lookupA st.attributes id).getD []).length + 1) st id cred.attrList.hash
      omega
    · exact h0
  have hA := attrsF_facts st1 id cred.attrList.hash
  show countHash (addCredentialBody st1 cred id b) cred.attrList.hash = 1
  have hattr := addCredentialBody_attributes st1 cred id b
  show sumCnt (addCredentialBody st1 cred id b).attributes cred.attrList.hash = 1
  rw [hattr]
  have hsome := sumCnt_setA_some (attrsF st1 id).2.attributes id
    ((attrsF st1 id).1 ++ [cred.attrList]) (attrsF st1 id).1 cred.attrList.hash hA.2.1
  have hz2 : cntL (attrsF st1 id).1 cred.attrList.hash = 0 := hA.2.2.2.2.2.2 hc1
  have happ : cntL ((attrsF st1 id).1 ++ [cred.attrList]) cred.attrList.hash = 1 := by
    rw [cntL_append, hz2, cntL_singleton_self]
  have hpz : sumCnt (attrsF st1 id).2.attributes cred.attrList.hash = 0 := hA.1.trans hc1
  omega

/-- C7: adding the same credential twice is idempotent — after the two calls
exactly one instance with that attribute-list hash is stored, and the second
call detects the duplicate, changes nothing (in memory or persistent storage)
and returns nil. -/
theorem C7_theorem (conf : ClientConf) (st : ClientState) (cred : Cred) (b1 b2 : Bool)
    (h0 : countHash st cred.attrList.hash = 0) :
    countHash (addCredential conf (addCredential conf st cred b1).1 cred b2).1
        cred.attrList.hash = 1 ∧
    (addCredential conf (addCredential conf st cred b1).1 cred b2).1 =
      (addCredential conf st cred b1).1 ∧
    (addCredential conf (addCredential conf st cred b1).1 cred b2).2 = none := by
  have hfresh := addCredential_fresh conf st cred b1 h0
  have hany1 : anyHashF (addCredential conf st cred b1).1 cred.attrList.hash = true := by
    rcases Bool.eq_false_or_eq_true
        (anyHashF (addCredential conf st cred b1).1 cred.attrList.hash) with ht | hf
    · exact ht
    · have := (countHash_eq_zero_iff (addCredential conf st cred b1).1 cred.attrList.hash).mpr hf
      omega
  have hsecond : ∀ Y : ClientState, anyHashF Y cred.attrList.hash = true →
      addCredential conf Y cred b2 = (Y, none) := by
    intro Y hY
    unfold addCredential
    rw [hY]
    simp
  rw [hsecond ((addCredential conf st cred b1).1) hany1]
  exact ⟨hfresh.1, rfl, rfl⟩

/-- C7 witness: adding a concrete fresh credential twice into the empty
client. -/
theorem C7_witness :
    countHash ⟨[], [], [], none, []⟩ (⟨⟨"h", some "t"⟩, 5⟩ : Cred).attrList.hash = 0 ∧
    countHash (addCredential ⟨fun _ => false, fun _ => true⟩
        (addCredential ⟨fun _ => false, fun _ => true⟩ ⟨[], [], [], none, []⟩
          ⟨⟨"h", some "t"⟩, 5⟩ true).1 ⟨⟨"h", some "t"⟩, 5⟩ true).1
        (⟨⟨"h", some "t"⟩, 5⟩ : Cred).attrList.hash = 1 :=
  ⟨rfl, (C7_theorem ⟨fun _ => false, fun _ => true⟩ ⟨[], [], [], none, []⟩
    ⟨⟨"h", some "t"⟩, 5⟩ true true rfl).1⟩

/-! ## Keyshare session state machine (keyshare.go 146-483)

The session is driven by callbacks in Go; here it is a fuel-indexed function
from an environment (scheme configuration, scripted keyshare-server
responses, scripted PIN entries, and the external gabi/jwt library calls) to
the list of observable events it produces.  Go iterates over the scheme
managers of the request with `range` over a map, whose order is unspecified;
the enumeration used by a run is therefore an explicit `order` parameter. -/

/-- A scheme-manager configuration record. -/
structure SchemeManager where
  Distributed : Bool
  KeyshareServer : String

/-- The structured remote error of an `irma.SessionError`. -/
structure RemoteError where
  Status : Int
  ErrorName : String
  Message : String
deriving DecidableEq, Repr

/-- An `irma.SessionError` returned by a transport call (`RemoteErr` models
the `RemoteError` field). -/
structure SessionError where
  RemoteErr : Option RemoteError
  Info : String
deriving DecidableEq, Repr

/-- The `keysharePinStatus` response body of the keyshare server. -/
structure KeysharePinStatus where
  Status : String
  Message : String
deriving DecidableEq, Repr

/-- The kind of the running session request. -/
inductive RequestKind
  | disclosure
  | signature
  | issuance
deriving DecidableEq, Repr

/-- A proof builder, reduced to its public key as consumed by the keyshare
session (`builder.PublicKey()`). -/
structure Builder where
  Issuer : List Char
  Counter : Nat
deriving DecidableEq, Repr

/-- Observable events of one keyshare session: handler callbacks, PIN
prompts, HTTP posts (with the Authorization header value sent along), and
commitment merges into proof builders. -/
inductive KsEvent
  | keyshareDone
  | keyshareCancelled
  | keyshareBlocked (manager : String) (duration : Int)
  | keyshareError (manager : Option String) (info : String)
  | keysharePin
  | keysharePinOK
  | requestPin (attempts : Int)
  | httpPost (scheme : String) (endpoint : String) (authHeader : String)
  | mergeCommitment (issuer : List Char) (counter : Nat)
deriving DecidableEq, Repr

/-- Environment of one keyshare session run: configuration facts and the
responses of the external world, scripted as total functions.  HTTP responses
are indexed by the global call counter and the scheme; PIN entries by the
prompt counter.  `parseToken` models `jwt.Parser.ParseWithClaims` with the
scheme's key function (`none` = parse or signature failure, `some exp` = the
`ExpiresAt` claim); `parseProofPJwt` models the JWT parse of
`finishDisclosureOrSigning` (`some` = error); `buildErr` models
`BuildDistributedProofList` failing; `challenge` the computed Schnorr
challenge. -/
structure KsEnv where
  schemeManagers : String → SchemeManager
  issuerScheme : List Char → String
  now : Int
  parseToken : String → String → Option Int
  verifyPinResp : Nat → String → Except SessionError KeysharePinStatus
  getCommitmentsResp : Nat → String → Except SessionError (List (PublicKeyIdentifier × Nat))
  getResponseResp : Nat → String → Except SessionError String
  pinInput : Nat → Bool × List Nat
  parseProofPJwt : String → String → Option String
  buildErr : Option String
  challenge : Nat

/-- The zero-value keyshare server record (standing in for Go's nil pointer;
only reachable states guaranteed enrolled by preflight dereference it). -/
def dummyKss : KeyshareServer := ⟨"", [], "", ""⟩

/-- The mutable state of a `keyshareSession`, with the counters indexing the
environment scripts.  `transportAuth` is the Authorization header of each
per-scheme transport; `keyshareServers` the (token-mutable) records;
`keyshareServer` the record selected for issuance. -/
structure KsState where
  pinCheck : Bool
  transportAuth : List (String × String)
  keyshareServers : List (String × KeyshareServer)
  keyshareServer : Option KeyshareServer
  httpCount : Nat
  pinCount : Nat
deriving DecidableEq, Repr

/-- `jwt.StandardClaims.VerifyExpiresAt(cmp, req)` of the jwt-go library:
an absent (zero) `exp` fails when required; otherwise compare. -/
def verifyExpiresAt (exp cmp : Int) (req : Bool) : Bool :=
  if exp = 0 then !req else decide (cmp ≤ exp)

/-- Result quadruple of `verifyPinWorker`. -/
structure PinWorkerResult where
  success : Bool
  tries : Int
  blocked : Int
  err : Option SessionError
deriving DecidableEq, Repr

/-- `verifyPinWorker` of keyshare.go (283-312): post the hashed pin to
`users/verify/pin`, then dispatch on the `status` field.  On `success` the
message is stored as the new token and the Authorization header is set to the
bare token (source line 296 — note there is no `"Bearer "` prefix there,
unlike line 200).  `strconv.Atoi` failures on the message surface as errors. -/
def verifyPinWorker (env : KsEnv) (pin : List Nat) (scheme : String) (st : KsState) :
    PinWorkerResult × KsState × List KsEvent :=
  let kss := (lookupA st.keyshareServers scheme).getD dummyKss
  let _hashedPin := HashedPin kss pin
  let ev : KsEvent := .httpPost scheme "users/verify/pin"
    ((lookupA st.transportAuth scheme).getD "")
  match env.verifyPinResp st.httpCount scheme with
  | .error e => (⟨false, 0, 0, some e⟩, ({ st with httpCount := st.httpCount + 1 }, [ev]))
  | .ok pinresult =>
    let st1 : KsState := { st with httpCount := st.httpCount + 1 }
    if pinresult.Status = "success" then
      (⟨true, 0, 0, none⟩,
        ({ st1 with
          keyshareServers := setA st1.keyshareServers scheme { kss with token := pinresult.Message },
          transportAuth := setA st1.transportAuth scheme pinresult.Message }, [ev]))
    else if pinresult.Status = "failure" then
      match goAtoi pinresult.Message.toList with
      | some n => (⟨false, n, 0, none⟩, (st1, [ev]))
      | none => (⟨false, 0, 0, some ⟨none, "Atoi error"⟩⟩, (st1, [ev]))
    else if pinresult.Status = "error" then
      match goAtoi pinresult.Message.toList with
      | some n => (⟨false, 0, n, none⟩, (st1, [ev]))
      | none => (⟨false, 0, 0, some ⟨none, "Atoi error"⟩⟩, (st1, [ev]))
    else
      (⟨false, 0, 0, some ⟨none, "Keyshare server returned unrecognized PIN status"⟩⟩,
        (st1, [ev]))

/-- Result of `verifyPinAttempt`; `manager` is the loop variable of the
`range` statement after the loop ends or returns. -/
structure PinAttemptResult where
  success : Bool
  tries : Int
  blocked : Int
  manager : String
  err : Option SessionError
deriving DecidableEq, Repr

/-- Per-scheme loop of `verifyPinAttempt` (keyshare.go 322-337): verify the
pin at each distributed scheme in enumeration order, stopping at the first
non-success. -/
def verifyPinAttemptLoop (env : KsEnv) (pin : List Nat) :
    List String → KsState → PinAttemptResult → PinAttemptResult × KsState × List KsEvent
  | [], st, acc => (acc, (st, []))
  | m :: rest, st, acc =>
    let acc1 : PinAttemptResult := { acc with manager := m }
    if (env.schemeManagers m).Distributed then
      let r := verifyPinWorker env pin m st
      let acc2 : PinAttemptResult :=
        { acc1 with
          success := r.1.success, tries := r.1.tries, blocked := r.1.blocked, err := r.1.err }
      if r.1.success then
        let res := verifyPinAttemptLoop env pin rest r.2.1 acc2
        (res.1, (res.2.1, r.2.2 ++ res.2.2))
      else (acc2, (r.2.1, r.2.2))
    else verifyPinAttemptLoop env pin rest st acc1

/-- `verifyPinAttempt` of keyshare.go. -/
def verifyPinAttempt (env : KsEnv) (pin : List Nat) (order : List String) (st : KsState) :
    PinAttemptResult × KsState × List KsEvent :=
  verifyPinAttemptLoop env pin order st ⟨false, 0, 0, "", none⟩

/-- Build the per-scheme lists of public-key identifiers from the builders
(keyshare.go 343-358). -/
def buildPkids (env : KsEnv) (builders : List Builder) :
    List (String × List PublicKeyIdentifier) :=
  builders.foldl
    (fun acc b =>
      let managerID := env.issuerScheme b.Issuer
      if (env.schemeManagers managerID).Distributed then
        setA acc managerID ((lookupA acc managerID).getD [] ++ [⟨b.Issuer, b.Counter⟩])
      else acc)
    []

/-- Outcome of the per-scheme posting loop of `GetCommitments`. -/
inductive CommitLoopOut
  | ok (commitments : List (PublicKeyIdentifier × Nat))
  | divert
  | fail (manager : String) (e : SessionError)
deriving DecidableEq, Repr

/-- Per-scheme posting loop of `GetCommitments` (keyshare.go 362-386): post
`prove/getCommitments` to each distributed scheme; a 403 remote error while
`pinCheck` is false diverts to a PIN prompt; any other error fails the
session. -/
def commitLoop (env : KsEnv) (pkids : List (String × List PublicKeyIdentifier)) :
    List String → KsState → List (PublicKeyIdentifier × Nat) →
      CommitLoopOut × KsState × List KsEvent
  | [], st, comms => (.ok comms, (st, []))
  | m :: rest, st, comms =>
    if (env.schemeManagers m).Distributed then
      let _body := (lookupA pkids m).getD []
      let ev : KsEvent := .httpPost m "prove/getCommitments"
        ((lookupA st.transportAuth m).getD "")
      match env.getCommitmentsResp st.httpCount m with
      | .error e =>
        let st1 : KsState := { st with httpCount := st.httpCount + 1 }
        match e.RemoteErr with
        | some re =>
          if re.Status = 403 ∧ st.pinCheck = false then (.divert, (st1, [ev]))
          else (.fail m e, (st1, [ev]))
        | none => (.fail m e, (st1, [ev]))
      | .ok cs =>
        let st1 : KsState := { st with httpCount := st.httpCount + 1 }
        let comms1 := cs.foldl (fun acc pc => setA acc pc.1 pc.2) comms
        let res := commitLoop env pkids rest st1 comms1
        (res.1, (res.2.1, ev :: res.2.2))
    else commitLoop env pkids rest st comms

/-- Merge received commitments into the builders (keyshare.go 388-397),
one event per `MergeProofPCommitment` call. -/
def mergeEvents (comms : List (PublicKeyIdentifier × Nat)) (builders : List Builder) :
    List KsEvent :=
  builders.foldl
    (fun acc b =>
      match lookupA comms ⟨b.Issuer, b.Counter⟩ with
      | some _ => acc ++ [.mergeCommitment b.Issuer b.Counter]
      | none => acc)
    []

/-- First JWT parse failure in the builder loop of
`finishDisclosureOrSigning` (keyshare.go 455-474). -/
def firstJwtError (env : KsEnv) (responses : List (String × String)) :
    List Builder → Option (String × String)
  | [] => none
  | b :: rest =>
    let m := env.issuerScheme b.Issuer
    if (env.schemeManagers m).Distributed then
      match env.parseProofPJwt m ((lookupA responses m).getD "") with
      | some e => some (m, e)
      | none => firstJwtError env responses rest
    else firstJwtError env responses rest

/-- `Finish` of keyshare.go (431-453) together with
`finishDisclosureOrSigning` (455-483). -/
def finishSession (env : KsEnv) (kind : RequestKind) (builders : List Builder)
    (responses : List (String × String)) (st : KsState) : List KsEvent × KsState :=
  match kind with
  | .issuance =>
    match env.buildErr with
    | some e =>
      ([.keyshareError (some ((st.keyshareServer.getD dummyKss).SchemeManagerIdentifier)) e], st)
    | none => ([.keyshareDone], st)
  | _ =>
    match firstJwtError env responses builders with
    | some me => ([.keyshareError (some me.1) me.2], st)
    | none =>
      match env.buildErr with
      | some e => ([.keyshareError none e], st)
      | none => ([.keyshareDone], st)

/-- Per-scheme posting loop of `GetProofPs` (keyshare.go 410-423); presence
in the transports map is how the source tests distributedness here. -/
def getProofPsLoop (env : KsEnv) :
    List String → KsState → List (String × String) →
      Except (String × SessionError) (List (String × String)) × KsState × List KsEvent
  | [], st, responses => (.ok responses, (st, []))
  | m :: rest, st, responses =>
    match lookupA st.transportAuth m with
    | none => getProofPsLoop env rest st responses
    | some auth =>
      let ev : KsEvent := .httpPost m "prove/getResponse" auth
      match env.getResponseResp st.httpCount m with
      | .error e => (.error (m, e), ({ st with httpCount := st.httpCount + 1 }, [ev]))
      | .ok j =>
        let st1 : KsState := { st with httpCount := st.httpCount + 1 }
        let res := getProofPsLoop env rest st1 (setA responses m j)
        (res.1, (res.2.1, ev :: res.2.2))

/-- `GetProofPs` of keyshare.go (405-426): compute the challenge (abstracted
into the environment), post it to every distributed scheme, then finish. -/
def GetProofPs (env : KsEnv) (kind : RequestKind) (builders : List Builder)
    (order : List String) (st : KsState) : List KsEvent × KsState :=
  let _challenge := env.challenge
  let res := getProofPsLoop env order st []
  match res.1 with
  | .error me => (res.2.2 ++ [.keyshareError (some me.1) me.2.Info], res.2.1)
  | .ok responses =>
    let fin := finishSession env kind builders responses res.2.1
    (res.2.2 ++ fin.1, fin.2)

mutual

/-- `VerifyPin` of keyshare.go (258-281): prompt for a PIN, then cancel,
fail, get blocked, retry, or proceed to `GetCommitments`. -/
def VerifyPin (env : KsEnv) (kind : RequestKind) (builders : List Builder)
    (order : List String) : Nat → Int → KsState → List KsEvent × KsState
  | 0, _, st => ([], st)
  | fuel + 1, attempts, st =>
    let ev : KsEvent := .requestPin attempts
    let inp := env.pinInput st.pinCount
    let st1 : KsState := { st with pinCount := st.pinCount + 1 }
    if inp.1 = false then ([ev, .keyshareCancelled], st1)
    else
      let r := verifyPinAttempt env inp.2 order st1
      match r.1.err with
      | some e => (ev :: r.2.2 ++ [.keyshareError (some r.1.manager) e.Info], r.2.1)
      | none =>
        if r.1.blocked ≠ 0 then
          (ev :: r.2.2 ++ [.keyshareBlocked r.1.manager r.1.blocked], r.2.1)
        else if r.1.success then
          let res := GetCommitments env kind builders order fuel r.2.1
          (ev :: r.2.2 ++ [.keysharePinOK] ++ res.1, res.2)
        else
          let res := VerifyPin env kind builders order fuel r.1.tries r.2.1
          (ev :: r.2.2 ++ res.1, res.2)

/-- `GetCommitments` of keyshare.go (342-400): post to every distributed
scheme; on a 403 with `pinCheck` false, set `pinCheck` to false again (the
source's line 375), emit `KeysharePin` and divert to `VerifyPin(-1)`; on
another error fail; otherwise merge the commitments and continue with
`GetProofPs`. -/
def GetCommitments (env : KsEnv) (kind : RequestKind) (builders : List Builder)
    (order : List String) : Nat → KsState → List KsEvent × KsState
  | 0, st => ([], st)
  | fuel + 1, st =>
    let pkids := buildPkids env builders
    let res := commitLoop env pkids order st []
    match res.1 with
    | .divert =>
      let st2 : KsState := { res.2.1 with pinCheck := false }
      let vp := VerifyPin env kind builders order fuel (-1) st2
      (res.2.2 ++ [.keysharePin] ++ vp.1, vp.2)
    | .fail m e => (res.2.2 ++ [.keyshareError (some m) e.Info], res.2.1)
    | .ok comms =>
      let res2 := GetProofPs env kind builders order res.2.1
      (res.2.2 ++ mergeEvents comms builders ++ res2.1, res2.2)

end

/-- Preflight enrollment check and distributed-scheme count
(keyshare.go 161-171). -/
def preflightCount (env : KsEnv) (kssMap : List (String × KeyshareServer)) :
    List String → Nat → Except String Nat
  | [], n => .ok n
  | m :: rest, n =>
    if (env.schemeManagers m).Distributed then
      if (lookupA kssMap m).isSome then preflightCount env kssMap rest (n + 1)
      else .error m
    else preflightCount env kssMap rest n

/-- Preflight transport creation and token check (keyshare.go 191-222): for
each distributed scheme set the `Authorization: Bearer <token>` header, then
parse the stored token as a JWT; a parse or signature failure, or an expiry
within one minute from now, sets `pinCheck`. -/
def preflightState (env : KsEnv) (kssMap : List (String × KeyshareServer)) :
    List String → KsState → KsState
  | [], st => st
  | m :: rest, st =>
    if (env.schemeManagers m).Distributed then
      let kss := (lookupA kssMap m).getD dummyKss
      let st1 : KsState := { st with
        keyshareServer := some kss,
        transportAuth := setA st.transportAuth m ("Bearer " ++ kss.token) }
      let st2 : KsState :=
        match env.parseToken m kss.token with
        | none => { st1 with pinCheck := true }
        | some exp =>
          if verifyExpiresAt exp (env.now + 60) true then st1
          else { st1 with pinCheck := true }
      preflightState env kssMap rest st2
    else preflightState env kssMap rest st

/-- The session state as built by `startKeyshareSession` before preflight. -/
def initialKsState (kssMap : List (String × KeyshareServer)) : KsState :=
  ⟨false, [], kssMap, none, 0, 0⟩

/-- `startKeyshareSession` of keyshare.go (151-230): preflight (enrollment
check, issuance cardinality check, transports, token freshness), then either
a PIN prompt or directly `GetCommitments`.  Returns the event trace and, when
preflight passed, the final session state. -/
def startKeyshareSession (env : KsEnv) (kind : RequestKind) (builders : List Builder)
    (order : List String) (kssMap : List (String × KeyshareServer)) (fuel : Nat) :
    List KsEvent × Option KsState :=
  match preflightCount env kssMap order 0 with
  | .error m =>
    ([.keyshareError (some m) "Not enrolled to keyshare server of scheme manager"], none)
  | .ok ksscount =>
    if kind = .issuance ∧ ksscount > 1 then
      ([.keyshareError none
          "Issuance session involving more than one keyshare servers are not supported"], none)
    else
      let st0 := preflightState env kssMap order (initialKsState kssMap)
      if st0.pinCheck then
        let res := VerifyPin env kind builders order fuel (-1) st0
        (.keysharePin :: res.1, some res.2)
      else
        let res := GetCommitments env kind builders order fuel st0
        (res.1, some res.2)


/-! ### Preflight lemmas -/

theorem preflightCount_ok (env : KsEnv) (kssMap : List (String × KeyshareServer)) :
    ∀ (order : List String) (n : Nat),
      (∀ m ∈ order, (env.schemeManagers m).Distributed → (lookupA kssMap m).isSome) →
      preflightCount env kssMap order n =
        .ok (n + (order.filter (fun m => (env.schemeManagers m).Distributed)).length) := by
  intro order
  induction order with
  | nil =>
    intro n _
    simp [preflightCount]
  | cons m rest ih =>
    intro n h
    unfold preflightCount
    by_cases hd : (env.schemeManagers m).Distributed
    · rw [if_pos hd, if_pos (h m (List.mem_cons_self _ _) hd),
        ih (n + 1) (fun x hx => h x (List.mem_cons_of_mem _ hx))]
      simp only [List.filter_cons, hd, if_true, List.length_cons, Except.ok.injEq]
      omega
    · rw [if_neg hd, ih n (fun x hx => h x (List.mem_cons_of_mem _ hx))]
      simp only [List.filter_cons, hd, Bool.false_eq_true, if_false]

/-- Whether the stored token of one scheme forces a PIN check: the JWT fails
to parse or verify, or its expiry check (with one minute of leeway) fails. -/
def tokenRequiresPin (env : KsEnv) (kss : KeyshareServer) (m : String) : Bool :=
  match env.parseToken m kss.token with
  | none => true
  | some exp => !(verifyExpiresAt exp (env.now + 60) true)

theorem preflightState_pinCheck (env : KsEnv) (kssMap : List (String × KeyshareServer)) :
    ∀ (order : List String) (st : KsState),
      (preflightState env kssMap order st).pinCheck =
        (st.pinCheck || order.any (fun m => (env.schemeManagers m).Distributed &&
          tokenRequiresPin env ((lookupA kssMap m).getD dummyKss) m)) := by
  intro order
  induction order with
  | nil =>
    intro st
    simp [preflightState]
  | cons m rest ih =>
    intro st
    unfold preflightState
    by_cases hd : (env.schemeManagers m).Distributed
    · rw [if_pos hd]
      cases hp : env.parseToken m ((lookupA kssMap m).getD dummyKss).token with
      | none =>
        simp only [hp, ih, List.any_cons, tokenRequiresPin, hd]
        simp [Bool.or_assoc]
      | some exp =>
        by_cases hv : verifyExpiresAt exp (env.now + 60) true
        · simp only [hp, hv, if_true, ih, List.any_cons, tokenRequiresPin, hd]
          simp [hv]
        · simp only [hp, ih, List.any_cons, tokenRequiresPin, hd]
          rw [if_neg hv]
          simp only [ih]
          simp [Bool.eq_false_iff.mpr hv, Bool.or_assoc]
    · rw [if_neg hd, ih]
      simp [hd]

/-- C5: an issuance request referencing more than one distributed scheme (all
enrolled, so the cardinality check is reached) fails during preflight with a
`KeyshareError` carrying a nil manager; no transport state is built (the
returned state is `none`), no HTTP call is made and no proof builder receives
a commitment merge. -/
theorem C5_theorem (env : KsEnv) (builders : List Builder) (order : List String)
    (kssMap : List (String × KeyshareServer)) (fuel : Nat)
    (henr : ∀ m ∈ order, (env.schemeManagers m).Distributed → (lookupA kssMap m).isSome)
    (hcount : 1 < (order.filter (fun m => (env.schemeManagers m).Distributed)).length) :
    startKeyshareSession env .issuance builders order kssMap fuel =
      ([.keyshareError none
          "Issuance session involving more than one keyshare servers are not supported"], none) ∧
    (∀ s ep a, KsEvent.httpPost s ep a ∉
      (startKeyshareSession env .issuance builders order kssMap fuel).1) ∧
    (∀ i c, KsEvent.mergeCommitment i c ∉
      (startKeyshareSession env .issuance builders order kssMap fuel).1) := by
  have hmain : startKeyshareSession env .issuance builders order kssMap fuel =
      ([.keyshareError none
          "Issuance session involving more than one keyshare servers are not supported"], none) := by
    unfold startKeyshareSession
    rw [preflightCount_ok env kssMap order 0 henr]
    dsimp only
    rw [if_pos ⟨rfl, by omega⟩]
  refine ⟨hmain, ?_, ?_⟩
  · intro s ep a
    rw [hmain]
    simp
  · intro i c
    rw [hmain]
    simp

/-- C5 witness: an issuance session over two enrolled distributed schemes. -/
theorem C5_witness :
    startKeyshareSession
        ⟨fun _ => ⟨true, "u"⟩, fun _ => "a", 0, fun _ _ => some 1000000,
          fun _ _ => .ok ⟨"success", "t"⟩, fun _ _ => .ok [], fun _ _ => .ok "j",
          fun _ => (true, []), fun _ _ => none, none, 0⟩
        .issuance [] ["a", "b"]
        [("a", ⟨"ua", [], "a", "t"⟩), ("b", ⟨"ub", [], "b", "t"⟩)] 5 =
      ([.keyshareError none
          "Issuance session involving more than one keyshare servers are not supported"], none) :=
  (C5_theorem ⟨fun _ => ⟨true, "u"⟩, fun _ => "a", 0, fun _ _ => some 1000000,
      fun _ _ => .ok ⟨"success", "t"⟩, fun _ _ => .ok [], fun _ _ => .ok "j",
      fun _ => (true, []), fun _ _ => none, none, 0⟩
    [] ["a", "b"] [("a", ⟨"ua", [], "a", "t"⟩), ("b", ⟨"ub", [], "b", "t"⟩)] 5
    (by intro m hm _; fin_cases hm <;> rfl) (by decide)).1

/-- C4: with preflight's enrollment and cardinality guards passing and a
non-negative clock, `pinCheck` at the end of preflight is true iff some
distributed scheme of the request has a stored token that fails JWT
parsing/verification or expires within one minute from now; when it is true
the session emits `KeysharePin` and enters `VerifyPin(-1)`, otherwise it
proceeds directly to `GetCommitments`. -/
theorem C4_theorem (env : KsEnv) (kind : RequestKind) (builders : List Builder)
    (order : List String) (kssMap : List (String × KeyshareServer)) (fuel : Nat)
    (henr : ∀ m ∈ order, (env.schemeManagers m).Distributed → (lookupA kssMap m).isSome)
    (hiss : ¬(kind = .issuance ∧
      1 < (order.filter (fun m => (env.schemeManagers m).Distributed)).length))
    (hnow : 0 ≤ env.now) :
    ((preflightState env kssMap order (initialKsState kssMap)).pinCheck = true ↔
      ∃ m ∈ order, (env.schemeManagers m).Distributed = true ∧
        ∃ kss, lookupA kssMap m = some kss ∧
          (env.parseToken m kss.token = none ∨
            ∃ e, env.parseToken m kss.token = some e ∧ e < env.now + 60)) ∧
    startKeyshareSession env kind builders order kssMap fuel =
      (if (preflightState env kssMap order (initialKsState kssMap)).pinCheck then
        (.keysharePin ::
            (VerifyPin env kind builders order fuel (-1)
              (preflightState env kssMap order (initialKsState kssMap))).1,
          some (VerifyPin env kind builders order fuel (-1)
            (preflightState env kssMap order (initialKsState kssMap))).2)
      else
        ((GetCommitments env kind builders order fuel
            (preflightState env kssMap order (initialKsState kssMap))).1,
          some (GetCommitments env kind builders order fuel
            (preflightState env kssMap order (initialKsState kssMap))).2)) := by
  constructor
  · rw [preflightState_pinCheck env kssMap order (initialKsState kssMap)]
    show (false || _) = true ↔ _
    rw [Bool.false_or, List.any_eq_true]
    constructor
    · rintro ⟨m, hm, hbit⟩
      rw [Bool.and_eq_true] at hbit
      obtain ⟨hd, htok⟩ := hbit
      obtain ⟨kss, hkss⟩ := Option.isSome_iff_exists.mp (henr m hm hd)
      refine ⟨m, hm, hd, kss, hkss, ?_⟩
      rw [hkss] at htok
      simp only [Option.getD_some] at htok
      unfold tokenRequiresPin at htok
      cases hp : env.parseToken m kss.token with
      | none => exact Or.inl rfl
      | some exp =>
        refine Or.inr ⟨exp, rfl, ?_⟩
        rw [hp] at htok
        have hv : verifyExpiresAt exp (env.now + 60) true = false := by
          simpa using htok
        unfold verifyExpiresAt at hv
        by_cases hz : exp = 0
        · omega
        · rw [if_neg hz] at hv
          simp at hv
          omega
    · rintro ⟨m, hm, hd, kss, hkss, hbad⟩
      refine ⟨m, hm, ?_⟩
      rw [Bool.and_eq_true]
      refine ⟨hd, ?_⟩
      rw [hkss]
      simp only [Option.getD_some]
      unfold tokenRequiresPin
      rcases hbad with hp | hbad
      · rw [hp]
      · obtain ⟨e, hp, he⟩ := hbad
        rw [hp]
        have hv : verifyExpiresAt e (env.now + 60) true = false := by
          unfold verifyExpiresAt
          by_cases hz : e = 0
          · rw [if_pos hz]
            rfl
          · rw [if_neg hz]
            simp
            omega
        simp [hv]
  · unfold startKeyshareSession
    rw [preflightCount_ok env kssMap order 0 henr]
    dsimp only
    rw [if_neg (show ¬(kind = RequestKind.issuance ∧
      0 + (order.filter (fun m => (env.schemeManagers m).Distributed)).length > 1) by
        rw [Nat.zero_add]
        exact hiss)]

/-- Environment for the C4 witness: one distributed scheme whose stored token
parses but expires almost immediately. -/
def c4env : KsEnv :=
  ⟨fun _ => ⟨true, "u"⟩, fun _ => "s", 100, fun _ _ => some 1,
    fun _ _ => .ok ⟨"success", "t2"⟩, fun _ _ => .ok [], fun _ _ => .ok "j",
    fun _ => (true, []), fun _ _ => none, none, 0⟩

/-- Keyshare-server records for the C4 witness. -/
def c4kss : List (String × KeyshareServer) := [("s", ⟨"u", [], "s", "tok"⟩)]

/-- C4 witness: the characterization applied to a concrete session with an
expiring token. -/
theorem C4_witness :
    (∀ m ∈ ["s"], (c4env.schemeManagers m).Distributed → (lookupA c4kss m).isSome) ∧
    (¬(RequestKind.disclosure = RequestKind.issuance ∧
      1 < ((["s"] : List String).filter
        (fun m => (c4env.schemeManagers m).Distributed)).length)) ∧
    (0 : Int) ≤ c4env.now ∧
    ((preflightState c4env c4kss ["s"] (initialKsState c4kss)).pinCheck = true ↔
      ∃ m ∈ ["s"], (c4env.schemeManagers m).Distributed = true ∧
        ∃ kss, lookupA c4kss m = some kss ∧
          (c4env.parseToken m kss.token = none ∨
            ∃ e, c4env.parseToken m kss.token = some e ∧ e < c4env.now + 60)) :=
  ⟨by decide, by decide, by decide,
    (C4_theorem c4env .disclosure [] ["s"] c4kss 5 (by decide) (by decide) (by decide)).1⟩

/-- Environment for the C1 failing input: a valid long-lived token, but the
first two `prove/getCommitments` posts answer 403; afterwards they succeed.
PIN verification always succeeds with the new token `"t2"`. -/
def c1env : KsEnv :=
  ⟨fun _ => ⟨true, "u"⟩, fun _ => "s", 0, fun _ _ => some 1000000,
    fun _ _ => .ok ⟨"success", "t2"⟩,
    fun i _ => if i ≤ 3 then .error ⟨some ⟨403, "", ""⟩, "403 forbidden"⟩ else .ok [],
    fun _ _ => .ok "j", fun _ => (true, []), fun _ _ => none, none, 0⟩

/-- Keyshare-server records for the C1 and C2 failing inputs. -/
def c1kss : List (String × KeyshareServer) := [("s", ⟨"u", [], "s", "tok"⟩)]

/-- Environment for the C2 failing input: an invalid stored token (so the
session starts with a PIN check), all keyshare-server calls succeeding. -/
def c2env : KsEnv :=
  ⟨fun _ => ⟨true, "u"⟩, fun _ => "s", 0, fun _ _ => none,
    fun _ _ => .ok ⟨"success", "t2"⟩, fun _ _ => .ok [], fun _ _ => .ok "j",
    fun _ => (true, []), fun _ _ => none, none, 0⟩

/-- C1 (code bug evidence): with a valid token and a keyshare server that
answers 403 to the first two `prove/getCommitments` posts, the session
re-prompts for the PIN after the second 403 as well — the trace contains two
`KeysharePin` events and no `KeyshareError` — because keyshare.go line 375
assigns `ks.pinCheck = false` (a no-op) instead of recording that a PIN was
already requested, contradicting the comment "(but only if we did not ask for
a PIN earlier)" and the specified once-only retry. -/
theorem C1_codebug :
    (startKeyshareSession c1env .disclosure [] ["s"] c1kss 10).1 =
      [.httpPost "s" "prove/getCommitments" "Bearer tok",
       .keysharePin,
       .requestPin (-1),
       .httpPost "s" "users/verify/pin" "Bearer tok",
       .keysharePinOK,
       .httpPost "s" "prove/getCommitments" "t2",
       .keysharePin,
       .requestPin (-1),
       .httpPost "s" "users/verify/pin" "t2",
       .keysharePinOK,
       .httpPost "s" "prove/getCommitments" "t2",
       .httpPost "s" "prove/getResponse" "t2",
       .keyshareDone] ∧
    (startKeyshareSession c1env .disclosure [] ["s"] c1kss 10).1.count .keysharePin = 2 ∧
    (∀ m i, KsEvent.keyshareError m i ∉
      (startKeyshareSession c1env .disclosure [] ["s"] c1kss 10).1) := by
  refine ⟨rfl, rfl, ?_⟩
  intro m i
  intro hmem
  have ht : (startKeyshareSession c1env .disclosure [] ["s"] c1kss 10).1 =
      [.httpPost "s" "prove/getCommitments" "Bearer tok",
       .keysharePin, .requestPin (-1),
       .httpPost "s" "users/verify/pin" "Bearer tok",
       .keysharePinOK, .httpPost "s" "prove/getCommitments" "t2",
       .keysharePin, .requestPin (-1),
       .httpPost "s" "users/verify/pin" "t2",
       .keysharePinOK, .httpPost "s" "prove/getCommitments" "t2",
       .httpPost "s" "prove/getResponse" "t2", .keyshareDone] := rfl
  rw [ht] at hmem
  simp at hmem

/-- C2 (code bug evidence): after a successful PIN verification stores the
new token `"t2"`, the subsequent keyshare-server calls of the session carry
an Authorization header equal to the bare token `"t2"`, not
`"Bearer t2"` — `verifyPinWorker` (keyshare.go 296) omits the `"Bearer "`
prefix that `startKeyshareSession` (line 200) uses. -/
theorem C2_codebug :
    (startKeyshareSession c2env .disclosure [] ["s"] c1kss 10).1 =
      [.keysharePin,
       .requestPin (-1),
       .httpPost "s" "users/verify/pin" "Bearer tok",
       .keysharePinOK,
       .httpPost "s" "prove/getCommitments" "t2",
       .httpPost "s" "prove/getResponse" "t2",
       .keyshareDone] ∧
    KsEvent.httpPost "s" "prove/getCommitments" "t2" ∈
      (startKeyshareSession c2env .disclosure [] ["s"] c1kss 10).1 ∧
    (∀ ep, KsEvent.httpPost "s" ep ("Bearer " ++ "t2") ∉
      (startKeyshareSession c2env .disclosure [] ["s"] c1kss 10).1) ∧
    "t2" ≠ "Bearer " ++ "t2" := by
  have ht : (startKeyshareSession c2env .disclosure [] ["s"] c1kss 10).1 =
      [.keysharePin, .requestPin (-1),
       .httpPost "s" "users/verify/pin" "Bearer tok",
       .keysharePinOK, .httpPost "s" "prove/getCommitments" "t2",
       .httpPost "s" "prove/getResponse" "t2", .keyshareDone] := rfl
  refine ⟨ht, ?_, ?_, by decide⟩
  · rw [ht]
    simp
  · intro ep hmem
    rw [ht] at hmem
    simp at hmem

/-- Environment for C9: two distributed schemes, valid tokens, all calls
succeeding. -/
def c9env : KsEnv :=
  ⟨fun _ => ⟨true, "u"⟩, fun _ => "a", 0, fun _ _ => some 1000000,
    fun _ _ => .ok ⟨"success", "t2"⟩, fun _ _ => .ok [], fun _ _ => .ok "j",
    fun _ => (true, []), fun _ _ => none, none, 0⟩

/-- Keyshare-server records for C9. -/
def c9kss : List (String × KeyshareServer) :=
  [("a", ⟨"ua", [], "a", "t"⟩), ("b", ⟨"ub", [], "b", "t"⟩)]

/-- C9 counterexample: the scheme managers of a request form a set iterated
with Go `range`, whose order is unspecified; two runs of the same session
state under two (equally valid) enumerations of the same set issue their
HTTP calls in different orders, so the call order is not deterministic. -/
theorem C9_counterexample :
    (["a", "b"] : List String).Perm ["b", "a"] ∧
    (startKeyshareSession c9env .disclosure [] ["a", "b"] c9kss 5).1 ≠
      (startKeyshareSession c9env .disclosure [] ["b", "a"] c9kss 5).1 := by
  exact ⟨by decide, by decide⟩

/-- The schemes of the HTTP calls of a trace, in order. -/
def httpSchemes (evs : List KsEvent) : List String :=
  evs.filterMap (fun e =>
    match e with
    | .httpPost s _ _ => some s
    | _ => none)

theorem verifyPinWorker_success (env : KsEnv) (pin : List Nat) (m : String) (st : KsState)
    (msg : String) (h : env.verifyPinResp st.httpCount m = .ok ⟨"success", msg⟩) :
    verifyPinWorker env pin m st =
      (⟨true, 0, 0, none⟩,
        ({ st with
            httpCount := st.httpCount + 1,
            keyshareServers := setA st.keyshareServers m
              { (lookupA st.keyshareServers m).getD dummyKss with token := msg },
            transportAuth := setA st.transportAuth m msg },
          [.httpPost m "users/verify/pin" ((lookupA st.transportAuth m).getD "")])) := by
  unfold verifyPinWorker
  rw [h]
  rfl

theorem ite_true_eq {α : Sort _} (a b : α) : (if (true : Bool) = true then a else b) = a :=
  if_pos rfl

theorem httpSchemes_append (a b : List KsEvent) :
    httpSchemes (a ++ b) = httpSchemes a ++ httpSchemes b := by
  simp [httpSchemes]

theorem httpSchemes_post_cons (s ep au : String) (t : List KsEvent) :
    httpSchemes (.httpPost s ep au :: t) = s :: httpSchemes t := rfl

theorem verifyPinAttemptLoop_schemes (env : KsEnv) (pin : List Nat)
    (hok : ∀ i m, ∃ msg, env.verifyPinResp i m = .ok ⟨"success", msg⟩) :
    ∀ (order : List String) (st : KsState) (acc : PinAttemptResult),
      httpSchemes (verifyPinAttemptLoop env pin order st acc).2.2 =
        order.filter (fun m => (env.schemeManagers m).Distributed) := by
  intro order
  induction order with
  | nil =>
    intro st acc
    simp [verifyPinAttemptLoop, httpSchemes]
  | cons m rest ih =>
    intro st acc
    unfold verifyPinAttemptLoop
    by_cases hd : (env.schemeManagers m).Distributed
    · rw [if_pos hd]
      obtain ⟨msg, hmsg⟩ := hok st.httpCount m
      rw [verifyPinWorker_success env pin m st msg hmsg]
      dsimp only
      rw [ite_true_eq]
      dsimp only
      rw [httpSchemes_append, httpSchemes_post_cons, ih]
      simp [List.filter_cons, hd, httpSchemes]
    · rw [if_neg hd, ih]
      simp [List.filter_cons, hd]

theorem commitLoop_schemes (env : KsEnv) (pkids : List (String × List PublicKeyIdentifier))
    (hok : ∀ i m, ∃ cs, env.getCommitmentsResp i m = .ok cs) :
    ∀ (order : List String) (st : KsState) (comms : List (PublicKeyIdentifier × Nat)),
      httpSchemes (commitLoop env pkids order st comms).2.2 =
        order.filter (fun m => (env.schemeManagers m).Distributed) := by
  intro order
  induction order with
  | nil =>
    intro st comms
    simp [commitLoop, httpSchemes]
  | cons m rest ih =>
    intro st comms
    unfold commitLoop
    by_cases hd : (env.schemeManagers m).Distributed
    · rw [if_pos hd]
      obtain ⟨cs, hcs⟩ := hok st.httpCount m
      rw [hcs]
      dsimp only
      rw [httpSchemes_post_cons, ih]
      simp [List.filter_cons, hd]
    · rw [if_neg hd, ih]
      simp [List.filter_cons, hd]

/-- C9 (amended): within one session the per-scheme HTTP calls of each phase
are issued sequentially, one per distributed scheme, following the given
enumeration of the request's scheme-manager set — shown here for the PIN
verification phase and the `getCommitments` phase under fully successful
responses.  The run is a function of the environment and the enumeration, so
it is deterministic once that enumeration is fixed; the enumeration itself is
Go map-iteration order, which is not guaranteed stable across executions
(see `C9_counterexample`). -/
theorem C9_theorem (env : KsEnv) (pin : List Nat)
    (pkids : List (String × List PublicKeyIdentifier)) (order : List String)
    (st1 st2 : KsState)
    (hok1 : ∀ i m, ∃ msg, env.verifyPinResp i m = .ok ⟨"success", msg⟩)
    (hok2 : ∀ i m, ∃ cs, env.getCommitmentsResp i m = .ok cs) :
    httpSchemes (verifyPinAttempt env pin order st1).2.2 =
      order.filter (fun m => (env.schemeManagers m).Distributed) ∧
    httpSchemes (commitLoop env pkids order st2 []).2.2 =
      order.filter (fun m => (env.schemeManagers m).Distributed) :=
  ⟨verifyPinAttemptLoop_schemes env pin hok1 order st1 ⟨false, 0, 0, "", none⟩,
    commitLoop_schemes env pkids hok2 order st2 []⟩

/-- C9 witness: the per-phase call order at a concrete two-scheme session. -/
theorem C9_witness :
    httpSchemes (verifyPinAttempt c9env [] ["a", "b"] (initialKsState c9kss)).2.2 =
      (["a", "b"] : List String).filter (fun m => (c9env.schemeManagers m).Distributed) ∧
    httpSchemes (commitLoop c9env [] ["a", "b"] (initialKsState c9kss) []).2.2 =
      (["a", "b"] : List String).filter (fun m => (c9env.schemeManagers m).Distributed) :=
  C9_theorem c9env [] [] ["a", "b"] (initialKsState c9kss) (initialKsState c9kss)
    (fun _ _ => ⟨"t2", rfl⟩) (fun _ _ => ⟨[], rfl⟩)

end Irmago
